import Mathlib

/-!
Verification of the burn autotuning code for 2D transposed convolution
(crates/burn-jit/src/kernel/conv/tune/conv_transpose2d.rs) and of the
tensor closeness predicates (crates/burn-tensor/src/tensor/api/numeric.rs),
as a shallow embedding in Lean 4.

Machine integers (usize) are modelled as Nat; tensor element values as ℚ.
The cubecl tuner engine (LocalTuner::execute) and the cubecl
batches_per_run capacity function are not part of this repository excerpt:
the former is modelled from the specification, the latter is kept as an
abstract parameter.
-/

namespace Burn

/-- Element data type of a float element, as reported by E::dtype(). -/
inductive DType where
  | F16
  | BF16
  | F32
  | F64
deriving DecidableEq, Repr

/-- ConvTransposeOptions<2>: each [usize; 2] field is a pair of Nat. -/
structure ConvTransposeOptions where
  stride : Nat × Nat
  padding : Nat × Nat
  dilation : Nat × Nat
  groups : Nat
  padding_out : Nat × Nat
deriving DecidableEq, Repr

/-- A JitTensor: a dynamic-rank shape plus element values (the values are
irrelevant to key construction, which is what several claims are about).
The device is an opaque identifier. -/
structure JitTensor where
  shape : List Nat
  data : List ℚ
  device : Nat
deriving DecidableEq, Repr

/-- ConvTranspose2dAutotuneKey: the shape/config fingerprint fields, in the
order of the new(..) constructor call in create_key. -/
structure ConvTranspose2dAutotuneKey where
  kernel_size : Nat × Nat
  stride : Nat × Nat
  padding : Nat × Nat
  padding_out : Nat × Nat
  dilation : Nat × Nat
  groups : Nat
  in_channels : Nat
  out_channels : Nat
  height : Nat
  width : Nat
  batch_size : Nat
  has_bias : Bool
  dtype : DType
deriving DecidableEq, Repr

/-- JitAutotuneKey: the operation-family tagged union; only the
ConvTranspose2d variant occurs in the excerpt under verification. -/
inductive JitAutotuneKey where
  | ConvTranspose2d (key : ConvTranspose2dAutotuneKey)
deriving DecidableEq, Repr

/-- create_key from conv_transpose2d.rs. Rust destructures
input.shape.dims() into [batch_size, in_channels, height, width] and
weights.shape.dims() into [out_channels, _, kernel_h, kernel_w], which
panics unless the ranks are 4; the fallible destructuring is embedded as
Option. Only bias.is_some() is read from the bias. -/
def create_key (dtype : DType) (input : JitTensor) (weights : JitTensor)
    (bias : Option JitTensor) (options : ConvTransposeOptions) :
    Option JitAutotuneKey :=
  match input.shape, weights.shape with
  | [batch_size, in_channels, height, width], [out_channels, _, kernel_h, kernel_w] =>
    some (JitAutotuneKey.ConvTranspose2d
      { kernel_size := (kernel_h, kernel_w)
        stride := options.stride
        padding := options.padding
        padding_out := options.padding_out
        dilation := options.dilation
        groups := options.groups
        in_channels := in_channels
        out_channels := out_channels
        height := height
        width := width
        batch_size := batch_size
        has_bias := bias.isSome
        dtype := dtype })
  | _, _ => none

/-- should_run from conv_transpose2d.rs. The cubecl
batches_per_run capacity function is external to the excerpt and is taken
as an abstract parameter (the spec treats its threshold as a pluggable
policy). Index 1 is the col2im (gemm) candidate; every other index
returns true. -/
def should_run (batches_per_run : Nat → Nat → Nat → Option Nat)
    (key : JitAutotuneKey) (index : Nat) : Bool :=
  match key with
  | JitAutotuneKey.ConvTranspose2d k =>
    match index with
    | 1 => (batches_per_run k.batch_size k.height k.width).isSome
    | _ => true

/-- The value distribution a synthetic benchmark tensor is filled from. -/
inductive BenchDist where
  | uniform (lo hi : ℚ)
deriving DecidableEq, Repr

/-- A synthetic benchmark tensor: its shape and the distribution its
element values are drawn from (random_uniform fills every element
independently from that distribution). -/
structure BenchTensor where
  shape : List Nat
  dist : BenchDist
deriving DecidableEq, Repr

/-- random_uniform(shape, device, lo, hi): produces a tensor of the given
shape whose values are drawn uniformly from [lo, hi]. -/
def random_uniform (shape : List Nat) (lo hi : ℚ) : BenchTensor :=
  { shape := shape, dist := BenchDist.uniform lo hi }

/-- The body of conv_transpose2d_operations (the tune macro body): from the
key it builds synthetic input, weights and optional bias tensors, shadowing
the real tensors it received; the options are forwarded unchanged. The Rust
random_bounds are ((-1.0).elem::<E>(), (1.0).elem::<E>()). -/
def conv_transpose2d_operations (key : ConvTranspose2dAutotuneKey)
    (input : JitTensor) (weights : JitTensor) (bias : Option JitTensor)
    (options : ConvTransposeOptions) :
    BenchTensor × BenchTensor × Option BenchTensor × ConvTransposeOptions :=
  let _ := (input, weights, bias)
  let random_bounds : ℚ × ℚ := (-1, 1)
  let input_shape := [key.batch_size, key.in_channels, key.height, key.width]
  let input := random_uniform input_shape random_bounds.1 random_bounds.2
  let c_per_grp := key.in_channels / key.groups
  let kernel_h := key.kernel_size.1
  let kernel_w := key.kernel_size.2
  let weight_shape := [key.out_channels, c_per_grp, kernel_h, kernel_w]
  let weights := random_uniform weight_shape random_bounds.1 random_bounds.2
  let bias_shape := [key.out_channels]
  let bias :=
    if key.has_bias then
      some (random_uniform bias_shape random_bounds.1 random_bounds.2)
    else none
  (input, weights, bias, options)

/-- DEFAULT_RTOL from numeric.rs (1e-5). -/
def DEFAULT_RTOL : ℚ := 1 / 100000

/-- DEFAULT_ATOL from numeric.rs (1e-8). -/
def DEFAULT_ATOL : ℚ := 1 / 100000000

/-- is_close from numeric.rs, elementwise on same-shape tensors modelled as
value lists: |a - b| <= |b| * rtol + atol, with None tolerances replaced by
the defaults. -/
def is_close (a b : List ℚ) (rtol atol : Option ℚ) : List Bool :=
  let rtol := rtol.getD DEFAULT_RTOL
  let atol := atol.getD DEFAULT_ATOL
  List.zipWith (fun x y => decide (|x - y| ≤ |y| * rtol + atol)) a b

/-- all_close from numeric.rs: is_close followed by all(). -/
def all_close (a b : List ℚ) (rtol atol : Option ℚ) : Bool :=
  (is_close a b rtol atol).all id

/-! ## The tuner engine

Modelled from the spec: cubecl's LocalTuner::execute (the Tuner
orchestrator of spec section 4.5) is not part of this repository excerpt;
only its caller conv_transpose2d_autotune and the candidate registration
are. The cache, the eligibility filtering, the benchmark aggregation and
the selection rule below follow the spec's words: on a cache hit run the
cached candidate on the real inputs; on a miss filter by eligibility,
benchmark the survivors, select the minimum aggregated duration with ties
broken by lowest candidate index, cache the winner, and run it on the real
inputs; if no candidate is eligible or all benchmarks fail, fail with
NoViableCandidate naming the operation family and the key, caching
nothing. Benchmark measurement itself is an oracle parameter
(index to optional aggregated duration; none means the candidate failed
benchmarking). -/

/-- The in-memory tuning cache: (key, chosen candidate index) entries,
most recent first. -/
structure TunerCache (K : Type) where
  entries : List (K × Nat)
deriving DecidableEq, Repr

/-- Cache lookup: first entry for the key, if any. -/
def TunerCache.get {K : Type} [DecidableEq K] (c : TunerCache K) (key : K) :
    Option Nat :=
  (c.entries.find? (fun p => decide (p.1 = key))).map Prod.snd

/-- Cache write: record the chosen index for the key. -/
def TunerCache.put {K : Type} (c : TunerCache K) (key : K) (idx : Nat) :
    TunerCache K :=
  { entries := (key, idx) :: c.entries }

/-- The error taxonomy surfaced to the caller: only NoViableCandidate
propagates, identifying the operation family and key. -/
inductive TuneError (K : Type) where
  | noViableCandidate (family : String) (key : K)
deriving DecidableEq, Repr

/-- Everything one execute call produces: the operation result or error,
the list of candidate indices that were benchmarked, the selected
candidate index (none when the call failed), and the cache after the
call. -/
structure ExecResult (K O : Type) where
  result : Except (TuneError K) O
  benchmarked : List Nat
  chosen : Option Nat
  cache : TunerCache K

/-- The candidate indices eligible for a key: positions of the candidate
list whose eligibility predicate holds. -/
def eligibleIndices {K : Type} (numCandidates : Nat)
    (isEligible : K → Nat → Bool) (key : K) : List Nat :=
  (List.range numCandidates).filter (fun i => isEligible key i)

/-- The (index, aggregated duration) pairs of the eligible candidates
whose benchmark succeeded, in increasing index order. -/
def measuredDurations {K : Type} (numCandidates : Nat)
    (isEligible : K → Nat → Bool) (key : K) (bench : Nat → Option Nat) :
    List (Nat × Nat) :=
  (eligibleIndices numCandidates isEligible key).filterMap
    (fun i => (bench i).map (fun d => (i, d)))

/-- Selection: minimum aggregated duration; on a tie the earlier entry of
the list wins, so with entries in increasing index order the lowest index
wins. -/
def selectBest : List (Nat × Nat) → Option (Nat × Nat)
  | [] => none
  | (i, d) :: rest =>
    match selectBest rest with
    | none => some (i, d)
    | some (j, e) => if d ≤ e then some (i, d) else some (j, e)

/-- The Tuner orchestrator (spec section 4.5), with explicit cache state.
Modelled from the spec: see the section comment above. -/
def execute {K I O : Type} [DecidableEq K] (family : String)
    (cache : TunerCache K) (key : K) (candidates : List (I → O))
    (isEligible : K → Nat → Bool) (bench : Nat → Option Nat)
    (realInputs : I) : ExecResult K O :=
  match cache.get key with
  | some idx =>
    match candidates[idx]? with
    | some run =>
      { result := Except.ok (run realInputs)
        benchmarked := []
        chosen := some idx
        cache := cache }
    | none =>
      { result := Except.error (TuneError.noViableCandidate family key)
        benchmarked := []
        chosen := none
        cache := cache }
  | none =>
    match selectBest (measuredDurations candidates.length isEligible key bench) with
    | some (winner, _) =>
      match candidates[winner]? with
      | some run =>
        { result := Except.ok (run realInputs)
          benchmarked := eligibleIndices candidates.length isEligible key
          chosen := some winner
          cache := cache.put key winner }
      | none =>
        { result := Except.error (TuneError.noViableCandidate family key)
          benchmarked := eligibleIndices candidates.length isEligible key
          chosen := none
          cache := cache }
    | none =>
      { result := Except.error (TuneError.noViableCandidate family key)
        benchmarked := eligibleIndices candidates.length isEligible key
        chosen := none
        cache := cache }

/-- A cache is sound for an eligibility predicate when every cached index
was eligible for its key; the tuner only ever caches eligible winners, so
this is its cache invariant. -/
def CacheSound {K : Type} [DecidableEq K] (cache : TunerCache K)
    (isEligible : K → Nat → Bool) : Prop :=
  ∀ k i, cache.get k = some i → isEligible k i = true

/-! ## The conv-transpose-2d candidate set -/

/-- ConvTranspose2dStrategy from the conv kernel module. -/
inductive ConvTranspose2dStrategy where
  | Direct
  | Gemm
deriving DecidableEq, Repr

/-- The real argument bundle a candidate runs on. -/
structure ConvArgs where
  input : JitTensor
  weights : JitTensor
  bias : Option JitTensor
  options : ConvTransposeOptions
deriving DecidableEq, Repr

/-- conv_transpose2d_direct: the underlying conv_transpose2d kernel with
the Direct strategy. The kernel itself is outside the excerpt, so it is an
abstract parameter convT. -/
def conv_transpose2d_direct
    (convT : ConvTranspose2dStrategy → ConvArgs → JitTensor)
    (args : ConvArgs) : JitTensor :=
  convT ConvTranspose2dStrategy.Direct args

/-- conv_transpose2d_col2im: the underlying conv_transpose2d kernel with
the Gemm strategy. -/
def conv_transpose2d_col2im
    (convT : ConvTranspose2dStrategy → ConvArgs → JitTensor)
    (args : ConvArgs) : JitTensor :=
  convT ConvTranspose2dStrategy.Gemm args

/-- The registered candidate list of the tune attribute:
operations(conv_transpose2d_direct, conv_transpose2d_col2im), in that
order. -/
def conv_transpose2d_candidates
    (convT : ConvTranspose2dStrategy → ConvArgs → JitTensor) :
    List (ConvArgs → JitTensor) :=
  [conv_transpose2d_direct convT, conv_transpose2d_col2im convT]

/-- conv_transpose2d_autotune: builds the key from the real inputs with
create_key and hands the registered candidate set, should_run and the real
inputs to the tuner's execute. Returns none only when the tensor ranks are
not 4 (a panic in the source). -/
def conv_transpose2d_autotune
    (convT : ConvTranspose2dStrategy → ConvArgs → JitTensor)
    (batches_per_run : Nat → Nat → Nat → Option Nat) (dtype : DType)
    (cache : TunerCache JitAutotuneKey) (bench : Nat → Option Nat)
    (args : ConvArgs) : Option (ExecResult JitAutotuneKey JitTensor) :=
  match create_key dtype args.input args.weights args.bias args.options with
  | some key =>
    some (execute "conv-transpose-2d" cache key
      (conv_transpose2d_candidates convT) (should_run batches_per_run)
      bench args)
  | none => none

/-! ## Concrete instances for evaluating the development -/

/-- A concrete conv kernel standing in for the device code: it returns its
input tensor, enough to observe which code path ran. -/
def demoConvT : ConvTranspose2dStrategy → ConvArgs → JitTensor :=
  fun _ a => a.input

/-- A concrete batches-per-run capacity function that always accepts. -/
def demoBpr : Nat → Nat → Nat → Option Nat := fun _ _ _ => some 1

/-- A concrete benchmark oracle: every candidate measures 1. -/
def demoBench : Nat → Option Nat := fun _ => some 1

/-- Concrete real inputs: a [1, 3, 4, 4] input and [2, 3, 3, 3] weights. -/
def demoArgs : ConvArgs :=
  { input := { shape := [1, 3, 4, 4], data := [], device := 0 }
    weights := { shape := [2, 3, 3, 3], data := [], device := 0 }
    bias := none
    options := { stride := (1, 1), padding := (0, 0), dilation := (1, 1),
                 groups := 1, padding_out := (0, 0) } }

/-- The key create_key builds for demoArgs. -/
def demoKey : JitAutotuneKey :=
  JitAutotuneKey.ConvTranspose2d
    { kernel_size := (3, 3), stride := (1, 1), padding := (0, 0),
      padding_out := (0, 0), dilation := (1, 1), groups := 1,
      in_channels := 3, out_channels := 2, height := 4, width := 4,
      batch_size := 1, has_bias := false, dtype := DType.F32 }

/-- The tuner outcome on demoArgs from a cold cache. -/
def demoRun : ExecResult JitAutotuneKey JitTensor :=
  execute "conv-transpose-2d" (TunerCache.mk []) demoKey
    (conv_transpose2d_candidates demoConvT) (should_run demoBpr) demoBench
    demoArgs

/-! ## Claims about create_key (C2, C7) -/

/-- C2: create_key is a pure function of the input/weight shapes and the
convolution options only: two calls whose input tensor, weight tensor and
bias option have equal shapes and whose ConvTransposeOptions are equal
return equal AutotuneKeys, regardless of the tensors' element values. -/
theorem create_key_pure (dtype : DType) (i₁ i₂ w₁ w₂ : JitTensor)
    (b₁ b₂ : Option JitTensor) (o₁ o₂ : ConvTransposeOptions)
    (hi : i₁.shape = i₂.shape) (hw : w₁.shape = w₂.shape)
    (hb : b₁.map JitTensor.shape = b₂.map JitTensor.shape) (ho : o₁ = o₂) :
    create_key dtype i₁ w₁ b₁ o₁ = create_key dtype i₂ w₂ b₂ o₂ := by
  subst ho
  have hbs : b₁.isSome = b₂.isSome := by
    cases b₁ <;> cases b₂ <;> simp_all
  simp only [create_key, hi, hw, hbs]

/-- Witness for create_key_pure: two calls with equal shapes but different
element values and devices give the same key. -/
theorem create_key_pure_witness :
    (JitTensor.mk [2, 3, 8, 8] [5] 0).shape = (JitTensor.mk [2, 3, 8, 8] [] 1).shape ∧
    (JitTensor.mk [4, 3, 3, 3] [9] 0).shape = (JitTensor.mk [4, 3, 3, 3] [] 1).shape ∧
    (some (JitTensor.mk [4] [1] 0)).map JitTensor.shape =
      (some (JitTensor.mk [4] [2] 1)).map JitTensor.shape ∧
    create_key DType.F32 (JitTensor.mk [2, 3, 8, 8] [5] 0)
        (JitTensor.mk [4, 3, 3, 3] [9] 0) (some (JitTensor.mk [4] [1] 0))
        (ConvTransposeOptions.mk (1, 1) (0, 0) (1, 1) 1 (0, 0)) =
      create_key DType.F32 (JitTensor.mk [2, 3, 8, 8] [] 1)
        (JitTensor.mk [4, 3, 3, 3] [] 1) (some (JitTensor.mk [4] [2] 1))
        (ConvTransposeOptions.mk (1, 1) (0, 0) (1, 1) 1 (0, 0)) :=
  ⟨rfl, rfl, rfl,
    create_key_pure DType.F32 _ _ _ _ _ _ _ _ rfl rfl rfl rfl⟩

/-- C7: two create_key calls whose input tensors differ in height or width
(all other shapes and the options equal) return unequal keys, so the
cached decision for one shape is never reused for the other. -/
theorem create_key_height_width_sensitive (dtype : DType)
    (i₁ i₂ w : JitTensor) (b : Option JitTensor) (o : ConvTransposeOptions)
    (n c h₁ w₁ h₂ w₂ oc cg kh kw : Nat)
    (hs₁ : i₁.shape = [n, c, h₁, w₁]) (hs₂ : i₂.shape = [n, c, h₂, w₂])
    (hws : w.shape = [oc, cg, kh, kw]) (hne : h₁ ≠ h₂ ∨ w₁ ≠ w₂) :
    create_key dtype i₁ w b o ≠ create_key dtype i₂ w b o := by
  simp only [create_key, hs₁, hs₂, hws]
  intro h
  rcases hne with hne | hne <;> simp_all

/-- Witness for create_key_height_width_sensitive: heights 8 and 9 give
different keys. -/
theorem create_key_height_width_sensitive_witness :
    (JitTensor.mk [2, 3, 8, 8] [] 0).shape = [2, 3, 8, 8] ∧
    (JitTensor.mk [2, 3, 9, 8] [] 0).shape = [2, 3, 9, 8] ∧
    (JitTensor.mk [4, 3, 3, 3] [] 0).shape = [4, 3, 3, 3] ∧
    ((8 : Nat) ≠ 9 ∨ (8 : Nat) ≠ 8) ∧
    create_key DType.F32 (JitTensor.mk [2, 3, 8, 8] [] 0)
        (JitTensor.mk [4, 3, 3, 3] [] 0) none
        (ConvTransposeOptions.mk (1, 1) (0, 0) (1, 1) 1 (0, 0)) ≠
      create_key DType.F32 (JitTensor.mk [2, 3, 9, 8] [] 0)
        (JitTensor.mk [4, 3, 3, 3] [] 0) none
        (ConvTransposeOptions.mk (1, 1) (0, 0) (1, 1) 1 (0, 0)) :=
  ⟨rfl, rfl, rfl, Or.inl (by decide),
    create_key_height_width_sensitive DType.F32 _ _ _ _ _ 2 3 8 8 9 8 4 3 3 3
      rfl rfl rfl (Or.inl (by decide))⟩

/-! ## Claims about should_run and the candidate order (C4, C9) -/

/-- C4: the col2im candidate at index 1 is eligible iff the
batches-per-run capacity function applied to (batch_size, height, width)
returns a value, and the registered candidate order is fixed as
[direct, col2im]. -/
theorem should_run_col2im_iff_batches_per_run
    (bpr : Nat → Nat → Nat → Option Nat) (k : ConvTranspose2dAutotuneKey)
    (convT : ConvTranspose2dStrategy → ConvArgs → JitTensor) :
    (should_run bpr (JitAutotuneKey.ConvTranspose2d k) 1 = true ↔
      (bpr k.batch_size k.height k.width).isSome = true) ∧
    (conv_transpose2d_candidates convT).length = 2 ∧
    (conv_transpose2d_candidates convT)[0]? = some (conv_transpose2d_direct convT) ∧
    (conv_transpose2d_candidates convT)[1]? = some (conv_transpose2d_col2im convT) := by
  refine ⟨?_, rfl, rfl, rfl⟩
  simp [should_run]

/-- C9: should_run returns true at every index other than 1, so the direct
candidate at index 0 is eligible for every key and the conv-transpose-2d
candidate set always has an eligible candidate. -/
theorem should_run_true_off_col2im (bpr : Nat → Nat → Nat → Option Nat)
    (key : JitAutotuneKey) (idx : Nat)
    (convT : ConvTranspose2dStrategy → ConvArgs → JitTensor)
    (hidx : idx ≠ 1) :
    should_run bpr key idx = true ∧ should_run bpr key 0 = true ∧
    0 ∈ eligibleIndices (conv_transpose2d_candidates convT).length
      (should_run bpr) key := by
  obtain ⟨k⟩ := key
  refine ⟨?_, ?_, ?_⟩
  · match idx, hidx with
    | 0, _ => rfl
    | n + 2, _ => rfl
  · rfl
  · simp only [eligibleIndices, conv_transpose2d_candidates, List.length_cons,
      List.length_nil, List.mem_filter, List.mem_range]
    exact ⟨by omega, rfl⟩

/-- Witness for should_run_true_off_col2im at index 0 with a capacity
function that always refuses. -/
theorem should_run_true_off_col2im_witness :
    ((0 : Nat) ≠ 1) ∧
    (should_run (fun _ _ _ => none)
        (JitAutotuneKey.ConvTranspose2d
          (ConvTranspose2dAutotuneKey.mk (3, 3) (1, 1) (0, 0) (0, 0) (1, 1)
            1 3 4 8 8 2 false DType.F32)) 0 = true ∧
      should_run (fun _ _ _ => none)
        (JitAutotuneKey.ConvTranspose2d
          (ConvTranspose2dAutotuneKey.mk (3, 3) (1, 1) (0, 0) (0, 0) (1, 1)
            1 3 4 8 8 2 false DType.F32)) 0 = true ∧
      0 ∈ eligibleIndices
        (conv_transpose2d_candidates (fun _ a => a.input)).length
        (should_run (fun _ _ _ => none))
        (JitAutotuneKey.ConvTranspose2d
          (ConvTranspose2dAutotuneKey.mk (3, 3) (1, 1) (0, 0) (0, 0) (1, 1)
            1 3 4 8 8 2 false DType.F32))) :=
  ⟨by decide,
    should_run_true_off_col2im (fun _ _ _ => none) _ 0 (fun _ a => a.input)
      (by decide)⟩

/-! ## Claim about the synthetic benchmark inputs (C5) -/

/-- C5: the synthetic benchmark tensors have shapes fully determined by
the key — input [batch_size, in_channels, height, width], weights
[out_channels, in_channels / groups, kernel_h, kernel_w], bias
[out_channels] present iff key.has_bias — every element is drawn uniformly
from [-1, 1], and the real tensors never influence the synthetic ones. -/
theorem conv_transpose2d_operations_synthetic
    (k : ConvTranspose2dAutotuneKey) (input weights : JitTensor)
    (bias : Option JitTensor) (options : ConvTransposeOptions) :
    ((conv_transpose2d_operations k input weights bias options).1.shape =
        [k.batch_size, k.in_channels, k.height, k.width]) ∧
    ((conv_transpose2d_operations k input weights bias options).1.dist =
        BenchDist.uniform (-1) 1) ∧
    ((conv_transpose2d_operations k input weights bias options).2.1.shape =
        [k.out_channels, k.in_channels / k.groups, k.kernel_size.1,
          k.kernel_size.2]) ∧
    ((conv_transpose2d_operations k input weights bias options).2.1.dist =
        BenchDist.uniform (-1) 1) ∧
    ((conv_transpose2d_operations k input weights bias options).2.2.1.isSome ↔
        k.has_bias = true) ∧
    (∀ bt ∈ (conv_transpose2d_operations k input weights bias options).2.2.1,
        bt.shape = [k.out_channels] ∧ bt.dist = BenchDist.uniform (-1) 1) ∧
    ((conv_transpose2d_operations k input weights bias options).2.2.2 =
        options) ∧
    (∀ (input₂ weights₂ : JitTensor) (bias₂ : Option JitTensor),
        conv_transpose2d_operations k input₂ weights₂ bias₂ options =
          conv_transpose2d_operations k input weights bias options) := by
  refine ⟨rfl, rfl, rfl, rfl, ?_, ?_, ?_, fun _ _ _ => rfl⟩ <;>
    by_cases hb : k.has_bias <;>
      simp [conv_transpose2d_operations, random_uniform, hb]

/-! ## Helper lemmas about selection and the cache -/

theorem selectBest_eq_none {l : List (Nat × Nat)} :
    selectBest l = none ↔ l = [] := by
  cases l with
  | nil => simp [selectBest]
  | cons q rest =>
    obtain ⟨i, d⟩ := q
    simp only [selectBest]
    cases selectBest rest with
    | none => simp
    | some qe =>
      obtain ⟨j, e⟩ := qe
      by_cases hde : d ≤ e <;> simp [hde]

theorem selectBest_mem {l : List (Nat × Nat)} {p : Nat × Nat}
    (h : selectBest l = some p) : p ∈ l := by
  induction l generalizing p with
  | nil => simp [selectBest] at h
  | cons q rest ih =>
    obtain ⟨i, d⟩ := q
    rw [selectBest] at h
    cases hrest : selectBest rest with
    | none =>
      rw [hrest] at h
      simp only [Option.some.injEq] at h
      simp [← h]
    | some qe =>
      obtain ⟨j, e⟩ := qe
      rw [hrest] at h
      by_cases hde : d ≤ e
      · simp only [hde, if_true, Option.some.injEq] at h
        simp [← h]
      · simp only [hde, if_false, Option.some.injEq] at h
        exact List.mem_cons_of_mem _ (ih (h ▸ hrest))

theorem selectBest_min {l : List (Nat × Nat)} {p : Nat × Nat}
    (h : selectBest l = some p) : ∀ q ∈ l, p.2 ≤ q.2 := by
  induction l generalizing p with
  | nil => simp [selectBest] at h
  | cons q₀ rest ih =>
    obtain ⟨i, d⟩ := q₀
    rw [selectBest] at h
    cases hrest : selectBest rest with
    | none =>
      rw [hrest] at h
      simp only [Option.some.injEq] at h
      rw [selectBest_eq_none] at hrest
      subst hrest
      simp [← h]
    | some qe =>
      obtain ⟨j, e⟩ := qe
      rw [hrest] at h
      have hrec := ih hrest
      intro q hq
      rcases List.mem_cons.mp hq with rfl | hq
      · by_cases hde : d ≤ e <;>
          simp only [hde, if_true, if_false, Option.some.injEq] at h <;>
          rw [← h] <;> simp <;> omega
      · have hq2 := hrec q hq
        by_cases hde : d ≤ e <;>
          simp only [hde, if_true, if_false, Option.some.injEq] at h <;>
          rw [← h] <;> simp at hq2 ⊢ <;> omega

theorem selectBest_tie_lowest {l : List (Nat × Nat)} {p : Nat × Nat}
    (hsorted : l.Pairwise (fun a b => a.1 < b.1))
    (h : selectBest l = some p) : ∀ q ∈ l, q.2 = p.2 → p.1 ≤ q.1 := by
  induction l generalizing p with
  | nil => simp [selectBest] at h
  | cons q₀ rest ih =>
    obtain ⟨i, d⟩ := q₀
    have hlt : ∀ q ∈ rest, i < q.1 :=
      fun q hq => (List.pairwise_cons.mp hsorted).1 q hq
    have htl := (List.pairwise_cons.mp hsorted).2
    rw [selectBest] at h
    cases hrest : selectBest rest with
    | none =>
      rw [hrest] at h
      simp only [Option.some.injEq] at h
      rw [selectBest_eq_none] at hrest
      subst hrest
      intro q hq
      rcases List.mem_cons.mp hq with rfl | hq
      · rw [← h]
        exact fun _ => le_refl _
      · simp at hq
    | some qe =>
      obtain ⟨j, e⟩ := qe
      rw [hrest] at h
      have hjm : (j, e) ∈ rest := selectBest_mem hrest
      intro q hq hqd
      by_cases hde : d ≤ e <;>
        simp only [hde, if_true, if_false, Option.some.injEq] at h <;>
        rw [← h] at hqd ⊢ <;> simp only at hqd ⊢
      · rcases List.mem_cons.mp hq with rfl | hq
        · exact le_refl _
        · exact le_of_lt (hlt q hq)
      · rcases List.mem_cons.mp hq with rfl | hq
        · exfalso
          have := hlt (j, e) hjm
          omega
        · exact ih htl hrest q hq hqd

theorem mem_eligibleIndices {K : Type} {n : Nat} {isEligible : K → Nat → Bool}
    {key : K} {i : Nat} :
    i ∈ eligibleIndices n isEligible key ↔ i < n ∧ isEligible key i = true := by
  simp [eligibleIndices, List.mem_filter, List.mem_range]

theorem measuredDurations_mem {K : Type} {n : Nat}
    {isEligible : K → Nat → Bool} {key : K} {bench : Nat → Option Nat}
    {p : Nat × Nat} (h : p ∈ measuredDurations n isEligible key bench) :
    p.1 ∈ eligibleIndices n isEligible key ∧ bench p.1 = some p.2 := by
  simp only [measuredDurations, List.mem_filterMap] at h
  obtain ⟨a, ha, hmap⟩ := h
  cases hb : bench a with
  | none => rw [hb] at hmap; simp at hmap
  | some v =>
    rw [hb] at hmap
    simp only [Option.map_some', Option.some.injEq] at hmap
    subst hmap
    exact ⟨ha, hb⟩

theorem measuredDurations_pairwise {K : Type} {n : Nat}
    {isEligible : K → Nat → Bool} {key : K} {bench : Nat → Option Nat} :
    (measuredDurations n isEligible key bench).Pairwise
      (fun a b => a.1 < b.1) := by
  have hr : (eligibleIndices n isEligible key).Pairwise (· < ·) :=
    List.Pairwise.sublist (List.filter_sublist (List.range n))
      (List.pairwise_lt_range n)
  rw [measuredDurations, List.pairwise_filterMap]
  refine hr.imp_of_mem ?_
  intro a b _ _ hab x hx y hy
  cases hba : bench a <;> rw [hba] at hx <;> simp at hx
  cases hbb : bench b <;> rw [hbb] at hy <;> simp at hy
  subst hx
  subst hy
  exact hab

theorem TunerCache.get_put {K : Type} [DecidableEq K] (c : TunerCache K)
    (key k : K) (idx : Nat) :
    (c.put key idx).get k = if key = k then some idx else c.get k := by
  by_cases hk : key = k <;>
    simp [TunerCache.get, TunerCache.put, List.find?_cons, hk]

/-- Branch equation: cache hit with a valid cached index. -/
theorem execute_eq_hit {K I O : Type} [DecidableEq K] {family : String}
    {cache : TunerCache K} {key : K} {candidates : List (I → O)}
    {isEligible : K → Nat → Bool} {bench : Nat → Option Nat}
    {realInputs : I} {i : Nat} {run : I → O}
    (hget : cache.get key = some i) (hrun : candidates[i]? = some run) :
    execute family cache key candidates isEligible bench realInputs =
      { result := Except.ok (run realInputs), benchmarked := [],
        chosen := some i, cache := cache } := by
  unfold execute
  rw [hget]
  dsimp only
  rw [hrun]

/-- Branch equation: cache hit with an index beyond the candidate list. -/
theorem execute_eq_hit_invalid {K I O : Type} [DecidableEq K]
    {family : String} {cache : TunerCache K} {key : K}
    {candidates : List (I → O)} {isEligible : K → Nat → Bool}
    {bench : Nat → Option Nat} {realInputs : I} {i : Nat}
    (hget : cache.get key = some i) (hrun : candidates[i]? = none) :
    execute family cache key candidates isEligible bench realInputs =
      { result := Except.error (TuneError.noViableCandidate family key),
        benchmarked := [], chosen := none, cache := cache } := by
  unfold execute
  rw [hget]
  dsimp only
  rw [hrun]

/-- Branch equation: cache miss and a winning candidate. -/
theorem execute_eq_miss_winner {K I O : Type} [DecidableEq K]
    {family : String} {cache : TunerCache K} {key : K}
    {candidates : List (I → O)} {isEligible : K → Nat → Bool}
    {bench : Nat → Option Nat} {realInputs : I} {winner dur : Nat}
    {run : I → O} (hget : cache.get key = none)
    (hsel : selectBest (measuredDurations candidates.length isEligible key
      bench) = some (winner, dur))
    (hrun : candidates[winner]? = some run) :
    execute family cache key candidates isEligible bench realInputs =
      { result := Except.ok (run realInputs),
        benchmarked := eligibleIndices candidates.length isEligible key,
        chosen := some winner, cache := cache.put key winner } := by
  unfold execute
  rw [hget]
  dsimp only
  rw [hsel]
  dsimp only
  rw [hrun]

/-- Branch equation: cache miss and a winner beyond the candidate list. -/
theorem execute_eq_miss_invalid {K I O : Type} [DecidableEq K]
    {family : String} {cache : TunerCache K} {key : K}
    {candidates : List (I → O)} {isEligible : K → Nat → Bool}
    {bench : Nat → Option Nat} {realInputs : I} {winner dur : Nat}
    (hget : cache.get key = none)
    (hsel : selectBest (measuredDurations candidates.length isEligible key
      bench) = some (winner, dur))
    (hrun : candidates[winner]? = none) :
    execute family cache key candidates isEligible bench realInputs =
      { result := Except.error (TuneError.noViableCandidate family key),
        benchmarked := eligibleIndices candidates.length isEligible key,
        chosen := none, cache := cache } := by
  unfold execute
  rw [hget]
  dsimp only
  rw [hsel]
  dsimp only
  rw [hrun]

/-- Branch equation: cache miss and nothing selectable. -/
theorem execute_eq_miss_none {K I O : Type} [DecidableEq K]
    {family : String} {cache : TunerCache K} {key : K}
    {candidates : List (I → O)} {isEligible : K → Nat → Bool}
    {bench : Nat → Option Nat} {realInputs : I}
    (hget : cache.get key = none)
    (hsel : selectBest (measuredDurations candidates.length isEligible key
      bench) = none) :
    execute family cache key candidates isEligible bench realInputs =
      { result := Except.error (TuneError.noViableCandidate family key),
        benchmarked := eligibleIndices candidates.length isEligible key,
        chosen := none, cache := cache } := by
  unfold execute
  rw [hget]
  dsimp only
  rw [hsel]

/-- Whenever execute selects a candidate index, its result is exactly that
candidate run on the real inputs. -/
theorem execute_chosen_result {K I O : Type} [DecidableEq K] {family : String}
    {cache : TunerCache K} {key : K} {candidates : List (I → O)}
    {isEligible : K → Nat → Bool} {bench : Nat → Option Nat} {realInputs : I}
    {idx : Nat}
    (h : (execute family cache key candidates isEligible bench realInputs).chosen
      = some idx) :
    ∃ run, candidates[idx]? = some run ∧
      (execute family cache key candidates isEligible bench realInputs).result
        = Except.ok (run realInputs) := by
  cases hget : cache.get key with
  | some i =>
    cases hrun : candidates[i]? with
    | some run =>
      rw [execute_eq_hit hget hrun] at h ⊢
      simp only [Option.some.injEq] at h
      subst h
      exact ⟨run, hrun, rfl⟩
    | none =>
      rw [execute_eq_hit_invalid hget hrun] at h
      simp at h
  | none =>
    cases hsel : selectBest (measuredDurations candidates.length isEligible key bench) with
    | some p =>
      obtain ⟨winner, dur⟩ := p
      cases hrun : candidates[winner]? with
      | some run =>
        rw [execute_eq_miss_winner hget hsel hrun] at h ⊢
        simp only [Option.some.injEq] at h
        subst h
        exact ⟨run, hrun, rfl⟩
      | none =>
        rw [execute_eq_miss_invalid hget hsel hrun] at h
        simp at h
    | none =>
      rw [execute_eq_miss_none hget hsel] at h
      simp at h

/-- Whenever execute selects an index on a cache miss, that index is the
winner selectBest picked from the measured durations. -/
theorem execute_chosen_selectBest {K I O : Type} [DecidableEq K]
    {family : String} {cache : TunerCache K} {key : K}
    {candidates : List (I → O)} {isEligible : K → Nat → Bool}
    {bench : Nat → Option Nat} {realInputs : I} {idx : Nat}
    (hget : cache.get key = none)
    (h : (execute family cache key candidates isEligible bench realInputs).chosen
      = some idx) :
    ∃ dur, selectBest (measuredDurations candidates.length isEligible key bench)
      = some (idx, dur) := by
  cases hsel : selectBest (measuredDurations candidates.length isEligible key bench) with
  | some p =>
    obtain ⟨winner, dur⟩ := p
    cases hrun : candidates[winner]? with
    | some run =>
      rw [execute_eq_miss_winner hget hsel hrun] at h
      simp only [Option.some.injEq] at h
      subst h
      exact ⟨dur, rfl⟩
    | none =>
      rw [execute_eq_miss_invalid hget hsel hrun] at h
      simp at h
  | none =>
    rw [execute_eq_miss_none hget hsel] at h
    simp at h

/-- Whenever execute selects a candidate index, the final cache maps the
key to that index (either it was already cached, or it was just put),
and the index denotes a real candidate. -/
theorem execute_chosen_cached {K I O : Type} [DecidableEq K]
    {family : String} {cache : TunerCache K} {key : K}
    {candidates : List (I → O)} {isEligible : K → Nat → Bool}
    {bench : Nat → Option Nat} {realInputs : I} {idx : Nat}
    (h : (execute family cache key candidates isEligible bench realInputs).chosen
      = some idx) :
    (execute family cache key candidates isEligible bench realInputs).cache.get
      key = some idx ∧ ∃ run, candidates[idx]? = some run := by
  cases hget : cache.get key with
  | some i =>
    cases hrun : candidates[i]? with
    | some run =>
      rw [execute_eq_hit hget hrun] at h ⊢
      simp only [Option.some.injEq] at h
      subst h
      exact ⟨hget, run, hrun⟩
    | none =>
      rw [execute_eq_hit_invalid hget hrun] at h
      simp at h
  | none =>
    cases hsel : selectBest (measuredDurations candidates.length isEligible key bench) with
    | some p =>
      obtain ⟨winner, dur⟩ := p
      cases hrun : candidates[winner]? with
      | some run =>
        rw [execute_eq_miss_winner hget hsel hrun] at h ⊢
        simp only [Option.some.injEq] at h
        subst h
        refine ⟨?_, run, hrun⟩
        simp [TunerCache.get_put]
      | none =>
        rw [execute_eq_miss_invalid hget hsel hrun] at h
        simp at h
    | none =>
      rw [execute_eq_miss_none hget hsel] at h
      simp at h

/-! ## Claims about the tuner (C1, C3, C6, C8) -/

/-- C1: whenever the tuner execute invoked by conv_transpose2d_autotune
returns and a candidate index was selected, the result equals directly
invoking the selected candidate run-function — conv_transpose2d_direct or
conv_transpose2d_col2im — on the real inputs; tuning never alters output
values, only which code path computes them. -/
theorem conv_transpose2d_autotune_delegates
    (convT : ConvTranspose2dStrategy → ConvArgs → JitTensor)
    (bpr : Nat → Nat → Nat → Option Nat) (dtype : DType)
    (cache : TunerCache JitAutotuneKey) (bench : Nat → Option Nat)
    (args : ConvArgs) (r : ExecResult JitAutotuneKey JitTensor) (idx : Nat)
    (hr : conv_transpose2d_autotune convT bpr dtype cache bench args = some r)
    (hc : r.chosen = some idx) :
    (idx = 0 ∧ r.result = Except.ok (conv_transpose2d_direct convT args)) ∨
    (idx = 1 ∧ r.result = Except.ok (conv_transpose2d_col2im convT args)) := by
  unfold conv_transpose2d_autotune at hr
  split at hr
  case _ key hkey =>
    obtain rfl : r =
        execute "conv-transpose-2d" cache key
          (conv_transpose2d_candidates convT) (should_run bpr) bench args :=
      (Option.some.inj hr).symm
    obtain ⟨run, hrun, hres⟩ := execute_chosen_result hc
    have hlt : idx < (conv_transpose2d_candidates convT).length :=
      (List.getElem?_eq_some.mp hrun).1
    simp only [conv_transpose2d_candidates, List.length_cons,
      List.length_nil] at hlt
    interval_cases idx
    · left
      refine ⟨rfl, ?_⟩
      simp only [conv_transpose2d_candidates, List.getElem?_cons_zero,
        Option.some.injEq] at hrun
      rw [hres, ← hrun]
    · right
      refine ⟨rfl, ?_⟩
      simp only [conv_transpose2d_candidates, List.getElem?_cons_succ,
        List.getElem?_cons_zero, Option.some.injEq] at hrun
      rw [hres, ← hrun]
  case _ hkey => simp at hr

/-- Witness for conv_transpose2d_autotune_delegates: a cold-cache run on
demoArgs selects index 0 and its result is the direct candidate applied to
the real inputs. -/
theorem conv_transpose2d_autotune_delegates_witness :
    (conv_transpose2d_autotune demoConvT demoBpr DType.F32
        (TunerCache.mk []) demoBench demoArgs = some demoRun) ∧
    (demoRun.chosen = some 0) ∧
    ((0 = 0 ∧ demoRun.result =
        Except.ok (conv_transpose2d_direct demoConvT demoArgs)) ∨
      (0 = 1 ∧ demoRun.result =
        Except.ok (conv_transpose2d_col2im demoConvT demoArgs))) :=
  ⟨rfl, rfl,
    conv_transpose2d_autotune_delegates demoConvT demoBpr DType.F32
      (TunerCache.mk []) demoBench demoArgs demoRun 0 rfl rfl⟩

/-- C3: starting from a cache whose entries are all eligible, execute
never benchmarks an ineligible candidate, never selects an ineligible
candidate, and keeps the cache free of ineligible entries. -/
theorem execute_respects_eligibility {K I O : Type} [DecidableEq K]
    (family : String) (cache : TunerCache K) (key : K)
    (candidates : List (I → O)) (isEligible : K → Nat → Bool)
    (bench : Nat → Option Nat) (realInputs : I)
    (hsound : CacheSound cache isEligible) :
    (∀ i ∈ (execute family cache key candidates isEligible bench
        realInputs).benchmarked, isEligible key i = true) ∧
    (∀ idx, (execute family cache key candidates isEligible bench
        realInputs).chosen = some idx → isEligible key idx = true) ∧
    CacheSound (execute family cache key candidates isEligible bench
      realInputs).cache isEligible := by
  cases hget : cache.get key with
  | some i =>
    cases hrun : candidates[i]? with
    | some run =>
      rw [execute_eq_hit hget hrun]
      refine ⟨by simp, ?_, hsound⟩
      intro idx hidx
      simp only [Option.some.injEq] at hidx
      subst hidx
      exact hsound key i hget
    | none =>
      rw [execute_eq_hit_invalid hget hrun]
      exact ⟨by simp, by simp, hsound⟩
  | none =>
    cases hsel : selectBest (measuredDurations candidates.length isEligible
        key bench) with
    | some p =>
      obtain ⟨winner, dur⟩ := p
      have hwel : isEligible key winner = true :=
        (mem_eligibleIndices.mp (measuredDurations_mem
          (selectBest_mem hsel)).1).2
      cases hrun : candidates[winner]? with
      | some run =>
        rw [execute_eq_miss_winner hget hsel hrun]
        refine ⟨fun i hi => (mem_eligibleIndices.mp hi).2, ?_, ?_⟩
        · intro idx hidx
          simp only [Option.some.injEq] at hidx
          subst hidx
          exact hwel
        · intro k j hkj
          rw [TunerCache.get_put] at hkj
          by_cases hk : key = k
          · rw [if_pos hk] at hkj
            simp only [Option.some.injEq] at hkj
            subst hkj
            subst hk
            exact hwel
          · rw [if_neg hk] at hkj
            exact hsound k j hkj
      | none =>
        rw [execute_eq_miss_invalid hget hsel hrun]
        exact ⟨fun i hi => (mem_eligibleIndices.mp hi).2, by simp, hsound⟩
    | none =>
      rw [execute_eq_miss_none hget hsel]
      exact ⟨fun i hi => (mem_eligibleIndices.mp hi).2, by simp, hsound⟩

/-- Witness for execute_respects_eligibility on a one-candidate set over a
cold Nat-keyed cache. -/
theorem execute_respects_eligibility_witness :
    CacheSound (TunerCache.mk ([] : List (Nat × Nat)))
      (fun _ _ => true) ∧
    ((∀ i ∈ (execute "demo" (TunerCache.mk []) 0
        [fun x : Nat => x + 1] (fun _ _ => true) (fun _ => some 1)
        5).benchmarked, (fun (_ : Nat) (_ : Nat) => true) 0 i = true) ∧
      (∀ idx, (execute "demo" (TunerCache.mk []) 0
        [fun x : Nat => x + 1] (fun _ _ => true) (fun _ => some 1)
        5).chosen = some idx →
          (fun (_ : Nat) (_ : Nat) => true) 0 idx = true) ∧
      CacheSound (execute "demo" (TunerCache.mk []) 0
        [fun x : Nat => x + 1] (fun _ _ => true) (fun _ => some 1)
        5).cache (fun _ _ => true)) :=
  ⟨fun _ _ _ => rfl,
    execute_respects_eligibility "demo" (TunerCache.mk []) 0
      [fun x : Nat => x + 1] (fun _ _ => true) (fun _ => some 1) 5
      (fun _ _ _ => rfl)⟩

/-- C6: once an execute call has selected a candidate index for a key,
every later execute call on the resulting cache selects the same index,
whatever its benchmark measurements or inputs; and selection breaks
duration ties by lowest candidate index (the measured-duration list is in
increasing index order, and selectBest picks the minimum duration,
earliest entry on ties). -/
theorem execute_deterministic_and_tiebreak {K I O : Type} [DecidableEq K]
    (family : String) (cache : TunerCache K) (key : K)
    (candidates : List (I → O)) (isEligible : K → Nat → Bool)
    (bench₁ bench₂ : Nat → Option Nat) (in₁ in₂ : I) (idx : Nat)
    (h : (execute family cache key candidates isEligible bench₁ in₁).chosen
      = some idx) :
    ((execute family
        (execute family cache key candidates isEligible bench₁ in₁).cache
        key candidates isEligible bench₂ in₂).chosen = some idx) ∧
    ((measuredDurations candidates.length isEligible key bench₁).Pairwise
        (fun a b => a.1 < b.1)) ∧
    (∀ (l : List (Nat × Nat)) (p : Nat × Nat),
        l.Pairwise (fun a b => a.1 < b.1) → selectBest l = some p →
        ∀ q ∈ l, p.2 ≤ q.2 ∧ (q.2 = p.2 → p.1 ≤ q.1)) := by
  refine ⟨?_, measuredDurations_pairwise, ?_⟩
  · obtain ⟨hcached, run, hrun⟩ := execute_chosen_cached h
    rw [execute_eq_hit hcached hrun]
  · intro l p hp hsel q hq
    exact ⟨selectBest_min hsel q hq, selectBest_tie_lowest hp hsel q hq⟩

/-- Witness for execute_deterministic_and_tiebreak: a first cold call
chooses index 0, and the repeat call on its cache does too. -/
theorem execute_deterministic_and_tiebreak_witness :
    ((execute "demo" (TunerCache.mk ([] : List (Nat × Nat))) 0
        [fun x : Nat => x] (fun _ _ => true) (fun _ => some 1) 0).chosen
      = some 0) ∧
    (((execute "demo"
        (execute "demo" (TunerCache.mk []) 0 [fun x : Nat => x]
          (fun _ _ => true) (fun _ => some 1) 0).cache
        0 [fun x : Nat => x] (fun _ _ => true) (fun _ => some 9)
        3).chosen = some 0) ∧
      ((measuredDurations ([fun x : Nat => x]).length (fun _ _ => true) 0
          (fun _ => some 1)).Pairwise (fun a b => a.1 < b.1)) ∧
      (∀ (l : List (Nat × Nat)) (p : Nat × Nat),
        l.Pairwise (fun a b => a.1 < b.1) → selectBest l = some p →
        ∀ q ∈ l, p.2 ≤ q.2 ∧ (q.2 = p.2 → p.1 ≤ q.1))) :=
  ⟨rfl,
    execute_deterministic_and_tiebreak "demo" (TunerCache.mk []) 0
      [fun x : Nat => x] (fun _ _ => true) (fun _ => some 1)
      (fun _ => some 9) 0 3 0 rfl⟩

/-- C8: on a key with no cache entry for which no candidate is eligible,
or every eligible candidate fails benchmarking, execute fails with the
NoViableCandidate error naming the operation family and the key, selects
nothing, and leaves the cache exactly as it was, so a later call can
retry. -/
theorem execute_no_viable_uncached {K I O : Type} [DecidableEq K]
    (family : String) (cache : TunerCache K) (key : K)
    (candidates : List (I → O)) (isEligible : K → Nat → Bool)
    (bench : Nat → Option Nat) (realInputs : I)
    (hget : cache.get key = none)
    (hfail : eligibleIndices candidates.length isEligible key = [] ∨
        ∀ i ∈ eligibleIndices candidates.length isEligible key,
          bench i = none) :
    ((execute family cache key candidates isEligible bench realInputs).result
      = Except.error (TuneError.noViableCandidate family key)) ∧
    ((execute family cache key candidates isEligible bench realInputs).cache
      = cache) ∧
    ((execute family cache key candidates isEligible bench realInputs).chosen
      = none) := by
  have hmeas : measuredDurations candidates.length isEligible key bench
      = [] := by
    rcases hfail with hfail | hfail
    · rw [measuredDurations, hfail]
      rfl
    · rw [measuredDurations, List.filterMap_eq_nil_iff]
      intro a ha
      rw [hfail a ha]
      rfl
  have hsel : selectBest (measuredDurations candidates.length isEligible key
      bench) = none := by
    rw [hmeas]
    rfl
  rw [execute_eq_miss_none hget hsel]
  exact ⟨rfl, rfl, rfl⟩

/-- Witness for execute_no_viable_uncached with a single ineligible
candidate over a cold Nat-keyed cache. -/
theorem execute_no_viable_uncached_witness :
    ((TunerCache.mk ([] : List (Nat × Nat))).get 0 = none) ∧
    (eligibleIndices ([fun x : Nat => x + 1]).length (fun _ _ => false) 0
      = [] ∨
      ∀ i ∈ eligibleIndices ([fun x : Nat => x + 1]).length
        (fun _ _ => false) 0, (fun _ => some 1) i = none) ∧
    (((execute "demo" (TunerCache.mk []) 0 [fun x : Nat => x + 1]
        (fun _ _ => false) (fun _ => some 1) 5).result
      = Except.error (TuneError.noViableCandidate "demo" 0)) ∧
      ((execute "demo" (TunerCache.mk []) 0 [fun x : Nat => x + 1]
        (fun _ _ => false) (fun _ => some 1) 5).cache
      = TunerCache.mk []) ∧
      ((execute "demo" (TunerCache.mk []) 0 [fun x : Nat => x + 1]
        (fun _ _ => false) (fun _ => some 1) 5).chosen = none)) :=
  ⟨rfl, Or.inl rfl,
    execute_no_viable_uncached "demo" (TunerCache.mk []) 0
      [fun x : Nat => x + 1] (fun _ _ => false) (fun _ => some 1) 5 rfl
      (Or.inl rfl)⟩

/-! ## Claim about is_close and all_close (C10) -/

/-- C10: for same-shape tensors, is_close is elementwise
|a - b| <= atol + rtol * |b| with defaults rtol = 1e-5 and atol = 1e-8
for None, all_close holds iff every element of is_close is true, and
is_close is not symmetric in its arguments since the relative tolerance
scales only with the second argument. -/
theorem is_close_all_close_spec (a b : List ℚ) (rtol atol : Option ℚ)
    (hlen : a.length = b.length) :
    ((is_close a b rtol atol).length = a.length) ∧
    (∀ i (hia : i < a.length) (hib : i < b.length)
        (hic : i < (is_close a b rtol atol).length),
      (is_close a b rtol atol).get ⟨i, hic⟩ =
        decide (|a.get ⟨i, hia⟩ - b.get ⟨i, hib⟩| ≤
          atol.getD (1 / 100000000) +
            rtol.getD (1 / 100000) * |b.get ⟨i, hib⟩|)) ∧
    (all_close a b rtol atol = true ↔
      ∀ x ∈ is_close a b rtol atol, x = true) ∧
    (is_close [0] [1000005 / 100000000000000] none none ≠
      is_close [1000005 / 100000000000000] [0] none none) := by
  refine ⟨?_, ?_, ?_, ?_⟩
  · simp [is_close, hlen]
  · intro i hia hib hic
    simp only [is_close, List.get_eq_getElem, List.getElem_zipWith,
      DEFAULT_RTOL, DEFAULT_ATOL]
    rw [decide_eq_decide, add_comm, mul_comm]
  · simp [all_close, List.all_eq_true, id]
  · intro hcontra
    have hq : (0 : ℚ) < 1000005 / 100000000000000 := by norm_num
    have hp1 : |(0 : ℚ) - 1000005 / 100000000000000| ≤
        |(1000005 : ℚ) / 100000000000000| * DEFAULT_RTOL + DEFAULT_ATOL := by
      rw [zero_sub, abs_neg, abs_of_pos hq, DEFAULT_RTOL, DEFAULT_ATOL]
      norm_num
    have hp2 : ¬ (|(1000005 : ℚ) / 100000000000000 - 0| ≤
        |(0 : ℚ)| * DEFAULT_RTOL + DEFAULT_ATOL) := by
      rw [sub_zero, abs_of_pos hq, abs_zero, DEFAULT_RTOL, DEFAULT_ATOL]
      norm_num
    simp only [is_close, Option.getD_none, List.zipWith_cons_cons,
      List.zipWith_nil_right, List.cons.injEq, and_true] at hcontra
    rw [decide_eq_true hp1, decide_eq_false hp2] at hcontra
    exact Bool.true_eq_false.mp hcontra

/-- Witness for is_close_all_close_spec on the singleton pair [1], [1]. -/
theorem is_close_all_close_spec_witness :
    (([(1 : ℚ)]).length = ([(1 : ℚ)]).length) ∧
    (all_close [(1 : ℚ)] [(1 : ℚ)] none none = true ↔
      ∀ x ∈ is_close [(1 : ℚ)] [(1 : ℚ)] none none, x = true) :=
  ⟨rfl, (is_close_all_close_spec [(1 : ℚ)] [(1 : ℚ)] none none rfl).2.2.1⟩

end Burn
